import Mathlib

/-!
Verification of the lunatic-rs actor-framework specification against its code.

The reviewed module surface (src/src/lib.rs) declares the submodules
tag, mailbox, ap (actor runtime), protocol and supervisor, but only the
facade file is present in the repository snapshot; the one function whose
body is present is sleep.  Definitions for the missing modules are
modelled from the specification text (each marked so in its doc comment);
sleep is embedded directly from the source.
-/

namespace Lunatic

/-- Modelled from the spec: the mailbox module (declared in lib.rs, file
missing).  An Envelope is a message payload plus an optional Tag and a
type discriminator; the atomic unit stored in a Mailbox. -/
structure Envelope where
  msgType : Nat
  tag : Option Nat
  payload : Nat
deriving DecidableEq, Repr

/-- Modelled from the spec: the mailbox receive scan (mailbox module file
missing).  Scans the queue in arrival order; the first Envelope matching
the filter is removed and returned together with the remaining queue;
non-matching Envelopes keep their relative order. -/
def receiveScan (filter : Envelope → Bool) : List Envelope → Option (Envelope × List Envelope)
  | [] => none
  | e :: rest =>
    if filter e then some (e, rest)
    else
      match receiveScan filter rest with
      | some (m, rest') => some (m, e :: rest')
      | none => none

/-- A filter selecting Envelopes by message type. -/
def typeFilter (t : Nat) (e : Envelope) : Bool := e.msgType == t

/-- A filter selecting Envelopes by expected Tag. -/
def tagFilter (t : Nat) (e : Envelope) : Bool := e.tag == some t

theorem receiveScan_cons_pos (filter : Envelope → Bool) (e : Envelope) (rest : List Envelope)
    (h : filter e = true) :
    receiveScan filter (e :: rest) = some (e, rest) := by
  simp [receiveScan, h]

theorem receiveScan_cons_neg (filter : Envelope → Bool) (e : Envelope) (rest : List Envelope)
    (h : filter e = false) :
    receiveScan filter (e :: rest) =
      match receiveScan filter rest with
      | some (m, rest') => some (m, e :: rest')
      | none => none := by
  simp [receiveScan, h]

/-- The key receive lemma: the first match is removed, everything before it
is preserved in order. -/
theorem receiveScan_eq_of_first_match (filter : Envelope → Bool) :
    ∀ (pre : List Envelope) (e : Envelope) (post : List Envelope),
      (∀ x ∈ pre, filter x = false) → filter e = true →
      receiveScan filter (pre ++ e :: post) = some (e, pre ++ post) := by
  intro pre
  induction pre with
  | nil =>
    intro e post _ he
    simpa using receiveScan_cons_pos filter e post he
  | cons a rest ih =>
    intro e post hpre he
    have ha : filter a = false := hpre a (List.mem_cons_self a rest)
    have hrest : ∀ x ∈ rest, filter x = false := by
      intro x hx
      exact hpre x (List.mem_cons_of_mem a hx)
    have hrec := ih e post hrest he
    calc receiveScan filter (a :: (rest ++ e :: post))
        = match receiveScan filter (rest ++ e :: post) with
          | some (m, rest') => some (m, a :: rest')
          | none => none := receiveScan_cons_neg filter a _ ha
      _ = some (e, a :: (rest ++ post)) := by rw [hrec]

/-- C2: receive scans the queue in arrival order, removes and returns the
first Envelope matching the filter regardless of its position, and leaves
all non-matching Envelopes ahead of it queued in their original relative
order. -/
theorem selective_receive (filter : Envelope → Bool) (pre : List Envelope) (e : Envelope)
    (post : List Envelope) (hpre : ∀ x ∈ pre, filter x = false) (he : filter e = true) :
    receiveScan filter (pre ++ e :: post) = some (e, pre ++ post) :=
  receiveScan_eq_of_first_match filter pre e post hpre he

/-- C2 witness: from queued A(type X), B(type Y), C(type X), an X-filtered
receive returns A leaving B, C; a second X-filtered receive returns C
leaving B. -/
theorem selective_receive_witness :
    receiveScan (typeFilter 0)
        [⟨0, none, 10⟩, ⟨1, none, 11⟩, ⟨0, none, 12⟩] =
      some (⟨0, none, 10⟩, [⟨1, none, 11⟩, ⟨0, none, 12⟩]) ∧
    receiveScan (typeFilter 0) [⟨1, none, 11⟩, ⟨0, none, 12⟩] =
      some (⟨0, none, 12⟩, [⟨1, none, 11⟩]) := by
  constructor
  · exact selective_receive (typeFilter 0) [] ⟨0, none, 10⟩
      [⟨1, none, 11⟩, ⟨0, none, 12⟩] (by decide) (by decide)
  · exact selective_receive (typeFilter 0) [⟨1, none, 11⟩] ⟨0, none, 12⟩
      [] (by decide) (by decide)

/-- Modelled from the spec: the result of a mailbox receive (the
MailboxResult type re-exported by lib.rs, mailbox module file missing).
A receive yields a message or Timeout; failure is a separate outcome of
the error taxonomy, never produced by the absence of a message. -/
inductive MailboxResult where
  | message (e : Envelope)
  | timedOut
  | failure (cause : Nat)
deriving DecidableEq, Repr

/-- Modelled from the spec: timeout-bounded receive (mailbox module file
missing).  The queue holds already-delivered Envelopes; arrivals lists
pairs of (arrival time, Envelope) for Envelopes delivered while the
caller is suspended.  A match in the queue, or the first matching arrival
strictly before the timeout elapses, is returned; otherwise the call
returns timedOut. -/
def receiveTimeout (filter : Envelope → Bool) (q : List Envelope)
    (arrivals : List (Nat × Envelope)) (timeout : Nat) : MailboxResult :=
  match receiveScan filter q with
  | some (e, _) => .message e
  | none =>
    match arrivals.find? (fun a => filter a.2 && decide (a.1 < timeout)) with
    | some a => .message a.2
    | none => .timedOut

theorem receiveScan_eq_none (filter : Envelope → Bool) :
    ∀ (q : List Envelope), (∀ x ∈ q, filter x = false) → receiveScan filter q = none := by
  intro q
  induction q with
  | nil => intro _; rfl
  | cons a rest ih =>
    intro h
    have ha : filter a = false := h a (List.mem_cons_self a rest)
    have hrest := ih (fun x hx => h x (List.mem_cons_of_mem a hx))
    rw [receiveScan_cons_neg filter a rest ha, hrest]

/-- C4: if no matching Envelope is queued and none arrives before the
timeout elapses, receive returns the Timeout value — never an error:
Timeout is a distinct, recoverable outcome, not a failure. -/
theorem receive_timeout_not_error (filter : Envelope → Bool) (q : List Envelope)
    (arrivals : List (Nat × Envelope)) (timeout : Nat)
    (hq : ∀ x ∈ q, filter x = false)
    (ha : ∀ a ∈ arrivals, a.1 < timeout → filter a.2 = false) :
    receiveTimeout filter q arrivals timeout = .timedOut ∧
    (∀ c, MailboxResult.timedOut ≠ .failure c) ∧ (∀ e, MailboxResult.timedOut ≠ .message e) := by
  refine ⟨?_, ?_, ?_⟩
  · have hscan : receiveScan filter q = none := receiveScan_eq_none filter q hq
    have hfind : arrivals.find? (fun a => filter a.2 && decide (a.1 < timeout)) = none := by
      apply List.find?_eq_none.mpr
      intro a hmem
      by_cases hlt : a.1 < timeout
      · simp [ha a hmem hlt]
      · simp [hlt]
    simp [receiveTimeout, hscan, hfind]
  · intro c h
    cases h
  · intro e h
    cases h

/-- C4 witness: a queue and pending arrivals with no match before the
timeout yield timedOut. -/
theorem receive_timeout_not_error_witness :
    receiveTimeout (typeFilter 0) [⟨1, none, 5⟩] [(2, ⟨1, none, 6⟩), (9, ⟨0, none, 7⟩)] 7 =
      .timedOut :=
  (receive_timeout_not_error (typeFilter 0) [⟨1, none, 5⟩]
    [(2, ⟨1, none, 6⟩), (9, ⟨0, none, 7⟩)] 7 (by decide) (by decide)).1

/-- Modelled from the spec: the tag module (declared in lib.rs, file
missing).  The Tag generator is a per-process monotonic counter: drawing
a Tag returns the current counter value and advances it. -/
def nextTag (c : Nat) : Nat × Nat := (c, c + 1)

/-- Modelled from the spec: the sequence of Tags generated by k successive
draws within one process, starting from counter value c. -/
def genTags (c : Nat) : Nat → List Nat
  | 0 => []
  | k + 1 => (nextTag c).1 :: genTags (nextTag c).2 k

theorem genTags_getElem (c k i : Nat) (h : i < k) : (genTags c k)[i]? = some (c + i) := by
  induction k generalizing c i with
  | zero => omega
  | succ k ih =>
    cases i with
    | zero => simp [genTags, nextTag]
    | succ i =>
      have hi : i < k := by omega
      have := ih (c + 1) i hi
      simp only [genTags, nextTag, List.getElem?_cons_succ]
      rw [this]
      congr 1
      omega

/-- C9: Tags generated within one process's lifetime are monotonically
increasing and never reused: of any two draws, the later one yields a
strictly greater, hence distinct, Tag. -/
theorem tags_monotone_never_reused (c k i j : Nat) (hij : i < j) (hj : j < k) :
    ∃ ti tj, (genTags c k)[i]? = some ti ∧ (genTags c k)[j]? = some tj ∧
      ti < tj ∧ ti ≠ tj := by
  have hi : i < k := lt_trans hij hj
  refine ⟨c + i, c + j, genTags_getElem c k i hi, genTags_getElem c k j hj, ?_, ?_⟩
  · omega
  · omega

/-- C9 witness: among four Tags drawn from a fresh generator, the second
and fourth are distinct with the later strictly greater. -/
theorem tags_monotone_never_reused_witness :
    ∃ ti tj, (genTags 0 4)[1]? = some ti ∧ (genTags 0 4)[3]? = some tj ∧
      ti < tj ∧ ti ≠ tj :=
  tags_monotone_never_reused 0 4 1 3 (by decide) (by decide)

/-- Modelled from the spec: the inbound messages an Actor Runtime
dispatches (ap module declared in lib.rs, file missing): a one-way cast,
or a two-way call carrying the caller's correlation Tag. -/
inductive AMsg (M : Type) where
  | cast (m : M)
  | call (tag : Nat) (m : M)
deriving DecidableEq

/-- Modelled from the spec: an AbstractProcess behaviour (ap module file
missing): private state S, a cast handler S → Msg → S and a call handler
S → Msg → (Reply, S). -/
structure ActorBehaviour (S M R : Type) where
  handle_cast : S → M → S
  handle_call : S → M → R × S

/-- Modelled from the spec: the Actor Runtime dispatch loop (ap module
file missing).  Envelopes are dispatched one at a time, strictly in
mailbox delivery order, with no internal concurrency: each step consumes
the head Envelope, updates the state, and a call's Reply is emitted
tagged with the request's Tag.  Returns the final state and the outbound
tagged replies in emission order. -/
def runActor {S M R : Type} (b : ActorBehaviour S M R) : S → List (AMsg M) → S × List (Nat × R)
  | s, [] => (s, [])
  | s, .cast m :: rest => runActor b (b.handle_cast s m) rest
  | s, .call t m :: rest =>
    let p := b.handle_call s m
    let r := runActor b p.2 rest
    (r.1, (t, p.1) :: r.2)

/-- C1: the actor's final state after a sequence of cast messages equals
handle_cast left-folded over the init state in mailbox delivery order,
the envelopes being dispatched one at a time by the sequential loop. -/
theorem actor_cast_fold {S M R : Type} (b : ActorBehaviour S M R) (s : S) (msgs : List M) :
    runActor b s (msgs.map .cast) = (msgs.foldl b.handle_cast s, []) := by
  induction msgs generalizing s with
  | nil => rfl
  | cons m rest ih =>
    simp only [List.map_cons, runActor, List.foldl_cons]
    exact ih (b.handle_cast s m)

/-- The Tags on the replies an actor emits are exactly the Tags of the
call Envelopes it dispatched, in order. -/
def callTags {M : Type} : List (AMsg M) → List Nat
  | [] => []
  | .cast _ :: rest => callTags rest
  | .call t _ :: rest => t :: callTags rest

theorem runActor_reply_tags {S M R : Type} (b : ActorBehaviour S M R) (s : S)
    (es : List (AMsg M)) : (runActor b s es).2.map Prod.fst = callTags es := by
  induction es generalizing s with
  | nil => rfl
  | cons e rest ih =>
    cases e with
    | cast m => simpa [runActor, callTags] using ih (b.handle_cast s m)
    | call t m => simpa [runActor, callTags] using ih (b.handle_call s m).2

theorem receiveScan_fst_eq_of_unique (filter : Envelope → Bool) :
    ∀ (q : List Envelope) (r : Envelope), r ∈ q → filter r = true →
      (∀ x ∈ q, filter x = true → x = r) →
      (receiveScan filter q).map Prod.fst = some r := by
  intro q
  induction q with
  | nil => intro r hmem; cases hmem
  | cons a rest ih =>
    intro r hmem hr huniq
    by_cases hfa : filter a = true
    · have : a = r := huniq a (List.mem_cons_self a rest) hfa
      rw [receiveScan_cons_pos filter a rest hfa]
      simp [this]
    · have hfa' : filter a = false := by
        cases h : filter a
        · rfl
        · exact absurd h hfa
      have hmem' : r ∈ rest := by
        cases List.mem_cons.mp hmem with
        | inl h => exact absurd (h ▸ hr) (by simp [hfa'])
        | inr h => exact h
      have huniq' : ∀ x ∈ rest, filter x = true → x = r := fun x hx hfx =>
        huniq x (List.mem_cons_of_mem a hx) hfx
      have hrec := ih r hmem' hr huniq'
      rw [receiveScan_cons_neg filter a rest hfa']
      cases hscan : receiveScan filter rest with
      | none => rw [hscan] at hrec; simp at hrec
      | some p =>
        rw [hscan] at hrec
        simp only [Option.map_some] at hrec ⊢
        exact hrec

/-- C3: with two concurrent calls tagged t1 ≠ t2 against the same actor,
each caller receives exactly the reply carrying its own tag, for every
interleaving of other traffic in the reply queue, because each call reply
is emitted tagged with its request's Tag (the runActor conjunct). -/
theorem call_correlation {S M R : Type} (b : ActorBehaviour S M R) (s : S)
    (es : List (AMsg M)) (q : List Envelope) (t1 t2 : Nat) (r1 r2 : Envelope)
    (hne : t1 ≠ t2)
    (h1 : r1 ∈ q) (ht1 : r1.tag = some t1)
    (h2 : r2 ∈ q) (ht2 : r2.tag = some t2)
    (hother : ∀ x ∈ q, x = r1 ∨ x = r2 ∨ (x.tag ≠ some t1 ∧ x.tag ≠ some t2)) :
    (receiveScan (tagFilter t1) q).map Prod.fst = some r1 ∧
    (receiveScan (tagFilter t2) q).map Prod.fst = some r2 ∧
    (runActor b s es).2.map Prod.fst = callTags es := by
  refine ⟨?_, ?_, runActor_reply_tags b s es⟩
  · apply receiveScan_fst_eq_of_unique (tagFilter t1) q r1 h1 (by simp [tagFilter, ht1])
    intro x hx hfx
    have hxt : x.tag = some t1 := by simpa [tagFilter] using hfx
    rcases hother x hx with h | h | h
    · exact h
    · exfalso
      rw [h, ht2] at hxt
      exact hne (Option.some_injective _ hxt).symm
    · exact absurd hxt h.1
  · apply receiveScan_fst_eq_of_unique (tagFilter t2) q r2 h2 (by simp [tagFilter, ht2])
    intro x hx hfx
    have hxt : x.tag = some t2 := by simpa [tagFilter] using hfx
    rcases hother x hx with h | h | h
    · exfalso
      rw [h, ht1] at hxt
      exact hne (Option.some_injective _ hxt)
    · exact h
    · exact absurd hxt h.2

/-- C3 witness: replies tagged 5 and 8 interleaved with untagged traffic;
each filter picks out exactly its own reply, and a two-call actor run
emits replies tagged with the request Tags. -/
theorem call_correlation_witness :
    (receiveScan (tagFilter 5)
        [⟨3, none, 0⟩, ⟨2, some 8, 21⟩, ⟨3, none, 1⟩, ⟨2, some 5, 20⟩]).map Prod.fst =
      some ⟨2, some 5, 20⟩ ∧
    (receiveScan (tagFilter 8)
        [⟨3, none, 0⟩, ⟨2, some 8, 21⟩, ⟨3, none, 1⟩, ⟨2, some 5, 20⟩]).map Prod.fst =
      some ⟨2, some 8, 21⟩ ∧
    (runActor ⟨fun s m => s + m, fun s m => (s * m, s)⟩ 1
        [.call 5 10, .cast 3, .call 8 7]).2.map Prod.fst =
      callTags [AMsg.call 5 10, .cast 3, .call 8 7] :=
  call_correlation ⟨fun s m => s + m, fun s m => (s * m, s)⟩ 1
    [.call 5 10, .cast 3, .call 8 7]
    [⟨3, none, 0⟩, ⟨2, some 8, 21⟩, ⟨3, none, 1⟩, ⟨2, some 5, 20⟩]
    5 8 ⟨2, some 5, 20⟩ ⟨2, some 8, 21⟩
    (by decide) (by decide) (by decide) (by decide) (by decide) (by decide)

/-- Modelled from the spec: payload types of a session (protocol module
declared in lib.rs, file missing). -/
inductive Ty where
  | intT
  | strT
deriving DecidableEq, Repr

/-- Modelled from the spec: payload values carried over a session. -/
inductive Val where
  | int (n : Int)
  | str (s : String)
deriving DecidableEq, Repr

/-- The type of a payload value. -/
def tyOf : Val → Ty
  | .int _ => .intT
  | .str _ => .strT

/-- Modelled from the spec: the session-type grammar of the protocol
module (file missing): Send, Recv, Choose over branches, Offer over
branches, End. -/
inductive SessionTy where
  | sendT (t : Ty) (next : SessionTy)
  | recvT (t : Ty) (next : SessionTy)
  | chooseT (branches : List SessionTy)
  | offerT (branches : List SessionTy)
  | endT

/-- Modelled from the spec: a runtime-checked session: the current
session-type state plus broken flags for the session itself and, via the
close-with-cause notice, its peer. -/
structure Session where
  state : SessionTy
  broken : Bool
  peerBroken : Bool

/-- Modelled from the spec: the session operations. -/
inductive SessionOp where
  | send (v : Val)
  | recv
  | choose (i : Nat)
  | offer (i : Nat)
  | close
deriving DecidableEq, Repr

/-- Whether the session's current state permits an operation. -/
def permits : SessionTy → SessionOp → Bool
  | .sendT t _, .send v => tyOf v == t
  | .recvT _ _, .recv => true
  | .chooseT bs, .choose i => i < bs.length
  | .offerT bs, .offer i => i < bs.length
  | .endT, .close => true
  | _, _ => false

/-- Marks the session and (by a close-with-cause notice) its peer as
broken. -/
def markBroken (s : Session) : Session := { s with broken := true, peerBroken := true }

/-- Modelled from the spec: result of one session operation: success with
the next session state and an optionally received value, or an immediate
local ProtocolViolation that leaves the session (and peer) broken. -/
inductive StepRes where
  | ok (s : Session) (received : Option Val)
  | protocolViolation (s : Session)

/-- Modelled from the spec: one step of the session state machine
(protocol module file missing).  An operation permitted by the current
state consumes it and produces the next state per the grammar; recv
additionally yields the incoming value supplied by the peer.  An
operation not permitted fails immediately, without suspending, with
ProtocolViolation and marks the session and its peer as broken. -/
def stepSession (incoming : Val) (s : Session) : SessionOp → StepRes
  | .send v =>
    match s.state with
    | .sendT t next => if tyOf v == t then .ok { s with state := next } none
                       else .protocolViolation (markBroken s)
    | _ => .protocolViolation (markBroken s)
  | .recv =>
    match s.state with
    | .recvT _ next => .ok { s with state := next } (some incoming)
    | _ => .protocolViolation (markBroken s)
  | .choose i =>
    match s.state with
    | .chooseT bs =>
      match bs[i]? with
      | some next => .ok { s with state := next } none
      | none => .protocolViolation (markBroken s)
    | _ => .protocolViolation (markBroken s)
  | .offer i =>
    match s.state with
    | .offerT bs =>
      match bs[i]? with
      | some next => .ok { s with state := next } none
      | none => .protocolViolation (markBroken s)
    | _ => .protocolViolation (markBroken s)
  | .close =>
    match s.state with
    | .endT => .ok s none
    | _ => .protocolViolation (markBroken s)

/-- The example session type Send of Int, then Recv of String, then
End. -/
def exampleSession : Session :=
  { state := .sendT .intT (.recvT .strT .endT), broken := false, peerBroken := false }

/-- C5: an operation not permitted by the session's current state fails
immediately with ProtocolViolation, marking the session and its peer as
broken; on the session typed Send Int (Recv String End), recv before send
fails with ProtocolViolation while send 42, then recv, then close reaches
End. -/
theorem protocol_violation_and_ordering (incoming : Val) (s : Session) (op : SessionOp)
    (h : permits s.state op = false) :
    stepSession incoming s op = .protocolViolation (markBroken s) ∧
    (markBroken s).broken = true ∧ (markBroken s).peerBroken = true ∧
    stepSession (.str "hi") exampleSession .recv =
      .protocolViolation (markBroken exampleSession) ∧
    stepSession (.str "hi") exampleSession (.send (.int 42)) =
      .ok { exampleSession with state := .recvT .strT .endT } none ∧
    stepSession (.str "hi") { exampleSession with state := .recvT .strT .endT } .recv =
      .ok { exampleSession with state := .endT } (some (.str "hi")) ∧
    stepSession (.str "hi") { exampleSession with state := .endT } .close =
      .ok { exampleSession with state := .endT } none := by
  refine ⟨?_, rfl, rfl, rfl, rfl, rfl, rfl⟩
  cases op with
  | send v =>
    cases hs : s.state with
    | sendT t next =>
      have : (tyOf v == t) = false := by
        have := h
        rw [hs] at this
        simpa [permits] using this
      simp [stepSession, hs, this]
    | recvT t next => simp [stepSession, hs]
    | chooseT bs => simp [stepSession, hs]
    | offerT bs => simp [stepSession, hs]
    | endT => simp [stepSession, hs]
  | recv =>
    cases hs : s.state with
    | recvT t next =>
      exfalso
      rw [hs] at h
      simp [permits] at h
    | sendT t next => simp [stepSession, hs]
    | chooseT bs => simp [stepSession, hs]
    | offerT bs => simp [stepSession, hs]
    | endT => simp [stepSession, hs]
  | choose i =>
    cases hs : s.state with
    | chooseT bs =>
      have hlen : ¬ i < bs.length := by
        rw [hs] at h
        simpa [permits] using h
      have : bs[i]? = none := by
        exact List.getElem?_eq_none (by omega)
      simp [stepSession, hs, this]
    | sendT t next => simp [stepSession, hs]
    | recvT t next => simp [stepSession, hs]
    | offerT bs => simp [stepSession, hs]
    | endT => simp [stepSession, hs]
  | offer i =>
    cases hs : s.state with
    | offerT bs =>
      have hlen : ¬ i < bs.length := by
        rw [hs] at h
        simpa [permits] using h
      have : bs[i]? = none := by
        exact List.getElem?_eq_none (by omega)
      simp [stepSession, hs, this]
    | sendT t next => simp [stepSession, hs]
    | recvT t next => simp [stepSession, hs]
    | chooseT bs => simp [stepSession, hs]
    | endT => simp [stepSession, hs]
  | close =>
    cases hs : s.state with
    | endT =>
      exfalso
      rw [hs] at h
      simp [permits] at h
    | sendT t next => simp [stepSession, hs]
    | recvT t next => simp [stepSession, hs]
    | chooseT bs => simp [stepSession, hs]
    | offerT bs => simp [stepSession, hs]

/-- C5 witness: recv issued on the example session in its Send state is
not permitted and fails with ProtocolViolation, leaving both sides marked
broken. -/
theorem protocol_violation_and_ordering_witness :
    stepSession (.str "hi") exampleSession .recv =
      .protocolViolation (markBroken exampleSession) ∧
    (markBroken exampleSession).broken = true :=
  ⟨(protocol_violation_and_ordering (.str "hi") exampleSession .recv (by decide)).1,
   (protocol_violation_and_ordering (.str "hi") exampleSession .recv (by decide)).2.1⟩

/-- Modelled from the spec: a ChildSpec RestartStrategy (supervisor
module declared in lib.rs, file missing). -/
inductive RestartStrategy where
  | permanent
  | transient
  | temporary
deriving DecidableEq, Repr

/-- Modelled from the spec: whether a child's RestartStrategy calls for a
restart after an exit: permanent always restarts, transient restarts only
on abnormal exit, temporary never restarts. -/
def shouldRestart : RestartStrategy → Bool → Bool
  | .permanent, _ => true
  | .transient, abnormal => abnormal
  | .temporary, _ => false

/-- Modelled from the spec: the RestartIntensity limiter: at most
maxRestarts restarts within the sliding window (milliseconds). -/
structure RestartIntensity where
  maxRestarts : Nat
  window : Nat
deriving DecidableEq, Repr

/-- Restarts recorded in the limiter log (restart timestamps, most recent
first) that fall within the sliding window ending at the given time. -/
def recentRestarts (ri : RestartIntensity) (now : Nat) (log : List Nat) : Nat :=
  (log.filter (fun ts => decide (now - ts < ri.window))).length

/-- Modelled from the spec: outcome of the supervisor's handling of a
child exit: restart recorded against the limiter, escalation (the
supervisor itself terminates abnormally), or no restart at all. -/
inductive SupOutcome where
  | restarted (log : List Nat)
  | escalated
  | noRestart
deriving DecidableEq, Repr

/-- Modelled from the spec: supervisor reaction to a child exit
(supervisor module file missing).  The RestartStrategy decides whether to
restart; a restart is recorded against the RestartIntensity limiter, and
if it would exceed maxRestarts within the window the supervisor
terminates abnormally (escalates) instead of restarting. -/
def superviseExit (strat : RestartStrategy) (abnormal : Bool) (ri : RestartIntensity)
    (log : List Nat) (now : Nat) : SupOutcome :=
  if shouldRestart strat abnormal then
    if recentRestarts ri now log + 1 > ri.maxRestarts then .escalated
    else .restarted (now :: log)
  else .noRestart

/-- C6: restarts are recorded against the RestartIntensity limiter, a
restart that would exceed maxRestarts within the window makes the
supervisor terminate abnormally instead, and with maxRestarts 2 and a 5 s
window three abnormal exits of a permanent child within 5 s give restart
1, restart 2, then escalation. -/
theorem restart_intensity (ri : RestartIntensity) (t1 t2 t3 : Nat)
    (h12 : t1 ≤ t2) (h23 : t2 ≤ t3) (hspan : t3 - t1 < 5000) :
    (∀ log now, ri.maxRestarts < recentRestarts ri now log + 1 →
      superviseExit .permanent true ri log now = .escalated) ∧
    (∀ log now, recentRestarts ri now log + 1 ≤ ri.maxRestarts →
      superviseExit .permanent true ri log now = .restarted (now :: log)) ∧
    superviseExit .permanent true ⟨2, 5000⟩ [] t1 = .restarted [t1] ∧
    superviseExit .permanent true ⟨2, 5000⟩ [t1] t2 = .restarted [t2, t1] ∧
    superviseExit .permanent true ⟨2, 5000⟩ [t2, t1] t3 = .escalated := by
  have hrec3 : recentRestarts ⟨2, 5000⟩ t3 [t2, t1] = 2 := by
    have e1 : t3 - t1 < (5000 : Nat) := by omega
    have e2 : t3 - t2 < (5000 : Nat) := by omega
    simp [recentRestarts, e1, e2]
  refine ⟨?_, ?_, ?_, ?_, ?_⟩
  · intro log now h
    simp [superviseExit, shouldRestart]
    omega
  · intro log now h
    simp [superviseExit, shouldRestart]
    omega
  · simp [superviseExit, shouldRestart, recentRestarts]
  · have : recentRestarts ⟨2, 5000⟩ t2 [t1] ≤ 1 := by
      simp [recentRestarts]
      exact List.length_filter_le _ _
    simp [superviseExit, shouldRestart]
    omega
  · simp [superviseExit, shouldRestart, hrec3]

/-- C6 witness: exits at times 0, 1000 and 2000 with maxRestarts 2 and
window 5000 give two restarts then escalation. -/
theorem restart_intensity_witness :
    superviseExit .permanent true ⟨2, 5000⟩ [] 0 = .restarted [0] ∧
    superviseExit .permanent true ⟨2, 5000⟩ [0] 1000 = .restarted [1000, 0] ∧
    superviseExit .permanent true ⟨2, 5000⟩ [1000, 0] 2000 = .escalated := by
  have h := restart_intensity ⟨2, 5000⟩ 0 1000 2000 (by decide) (by decide) (by decide)
  exact ⟨h.2.2.1, h.2.2.2.1, h.2.2.2.2⟩

/-- Modelled from the spec: a child's run state as tracked by its
supervisor. -/
inductive RunState where
  | notStarted
  | running
  | exited (cause : Nat)
deriving DecidableEq, Repr

/-- Modelled from the spec: a supervised child: identifier, the state its
init produces, its RestartStrategy, its run state, and its current
internal actor state. -/
structure Child (S : Type) where
  id : Nat
  initState : S
  strategy : RestartStrategy
  run : RunState
  state : S

/-- Respawning a child: run state becomes running and its internal state
is reset to the result of its init. -/
def respawnChild {S : Type} (c : Child S) : Child S :=
  { c with run := .running, state := c.initState }

/-- Modelled from the spec: the one_for_one RestartPolicy scope
(supervisor module file missing): on a child exit only the failed child
is restarted (if its strategy calls for it; otherwise it is left as
exited), and every other child is untouched. -/
def oneForOneExit {S : Type} (children : List (Child S)) (failedId : Nat) (abnormal : Bool)
    (cause : Nat) : List (Child S) :=
  children.map fun c =>
    if c.id = failedId then
      if shouldRestart c.strategy abnormal then respawnChild c
      else { c with run := .exited cause }
    else c

/-- C7: under one_for_one, when one child crashes abnormally, every other
child is untouched — a running sibling keeps run state running and its
internal state unchanged — while the failed (restartable) child is
respawned with its state reset to its init result. -/
theorem one_for_one_frame {S : Type} (children : List (Child S)) (failedId : Nat)
    (cause : Nat) (i : Nat) (c : Child S) (h : children[i]? = some c) :
    (c.id ≠ failedId → (oneForOneExit children failedId true cause)[i]? = some c) ∧
    (c.id = failedId → shouldRestart c.strategy true = true →
      (oneForOneExit children failedId true cause)[i]? =
        some { c with run := .running, state := c.initState }) := by
  constructor
  · intro hne
    simp only [oneForOneExit, List.getElem?_map, h, Option.map_some]
    simp [hne]
  · intro heq hres
    simp only [oneForOneExit, List.getElem?_map, h, Option.map_some]
    simp [heq, hres, respawnChild]

/-- C7 witness: children A (id 0) and B (id 1) both running; A crashes
abnormally; B's entry is unchanged and A is respawned with state reset to
its init result. -/
theorem one_for_one_frame_witness :
    (oneForOneExit [(⟨0, 100, .permanent, .running, 42⟩ : Child Nat),
        ⟨1, 200, .permanent, .running, 77⟩] 0 true 9)[1]? =
      some ⟨1, 200, .permanent, .running, 77⟩ ∧
    (oneForOneExit [(⟨0, 100, .permanent, .running, 42⟩ : Child Nat),
        ⟨1, 200, .permanent, .running, 77⟩] 0 true 9)[0]? =
      some ⟨0, 100, .permanent, .running, 100⟩ :=
  ⟨(one_for_one_frame [⟨0, 100, .permanent, .running, 42⟩,
      ⟨1, 200, .permanent, .running, 77⟩] 0 9 1 ⟨1, 200, .permanent, .running, 77⟩ rfl).1
      (by decide),
   (one_for_one_frame [⟨0, 100, .permanent, .running, 42⟩,
      ⟨1, 200, .permanent, .running, 77⟩] 0 9 0 ⟨0, 100, .permanent, .running, 42⟩ rfl).2
      rfl rfl⟩

/-- Modelled from the spec: a process's status in the link model
(function::process module with spawn_link declared in lib.rs, body
missing). -/
inductive PStatus where
  | running
  | terminated (cause : Nat)
deriving DecidableEq, Repr

/-- Modelled from the spec: a process as seen by the link-propagation
mechanism: identifier, whether it traps exit signals, its status, and the
exit signals (peer, cause) it has received. -/
structure Proc where
  pid : Nat
  trap : Bool
  status : PStatus
  signals : List (Nat × Nat)
deriving DecidableEq, Repr

/-- Modelled from the spec: the process system: processes plus links as
an undirected edge set over process ids. -/
structure ProcSys where
  procs : List Proc
  links : List (Nat × Nat)
deriving DecidableEq, Repr

/-- Whether two process ids are linked (edges are undirected). -/
def linked (sys : ProcSys) (p q : Nat) : Bool :=
  sys.links.any fun e => (e.1 == p && e.2 == q) || (e.1 == q && e.2 == p)

/-- Modelled from the spec: propagation of an abnormal termination of
process p with the given cause over the link edges (spawn_link contract,
function::process module body missing): every linked running process
receives an exit signal and, unless it traps the signal, terminates with
the same abnormal cause. -/
def propagateExit (sys : ProcSys) (p : Nat) (cause : Nat) : ProcSys :=
  { sys with
    procs := sys.procs.map fun q =>
      if q.pid ≠ p ∧ linked sys p q.pid ∧ q.status = .running then
        if q.trap then { q with signals := (p, cause) :: q.signals }
        else { q with status := .terminated cause, signals := (p, cause) :: q.signals }
      else q }

/-- C8: when a process terminates abnormally, every process linked to it
receives an exit signal, and unless it traps the signal it terminates
with the same abnormal cause — a linked untrapped process never keeps
running after its link peer fails. -/
theorem link_exit_propagation (sys : ProcSys) (p cause i : Nat) (q : Proc)
    (h : sys.procs[i]? = some q) (hlink : linked sys p q.pid = true)
    (hne : q.pid ≠ p) (hrun : q.status = .running) :
    ∃ q', (propagateExit sys p cause).procs[i]? = some q' ∧
      (p, cause) ∈ q'.signals ∧
      (q.trap = false → q'.status = .terminated cause ∧ q'.status ≠ .running) := by
  simp only [propagateExit, List.getElem?_map, h, Option.map_some]
  have hcond : (q.pid ≠ p ∧ linked sys p q.pid ∧ q.status = .running) := ⟨hne, hlink, hrun⟩
  by_cases htrap : q.trap
  · refine ⟨{ q with signals := (p, cause) :: q.signals }, ?_, ?_, ?_⟩
    · simp [hcond, htrap]
    · exact List.mem_cons_self _ _
    · intro hfalse
      rw [htrap] at hfalse
      cases hfalse
  · refine ⟨{ q with status := .terminated cause, signals := (p, cause) :: q.signals },
      ?_, ?_, ?_⟩
    · simp [hcond, htrap]
    · exact List.mem_cons_self _ _
    · intro _
      exact ⟨rfl, by simp⟩

/-- C8 witness: processes 1 and 2 linked, 2 not trapping; when 1 dies
abnormally with cause 7, process 2 receives the exit signal and is
terminated with cause 7. -/
theorem link_exit_propagation_witness :
    ∃ q', (propagateExit ⟨[⟨1, false, .terminated 7, []⟩, ⟨2, false, .running, []⟩],
        [(1, 2)]⟩ 1 7).procs[1]? = some q' ∧
      (1, 7) ∈ q'.signals ∧
      (false = false → q'.status = .terminated 7 ∧ q'.status ≠ .running) :=
  link_exit_propagation ⟨[⟨1, false, .terminated 7, []⟩, ⟨2, false, .running, []⟩],
    [(1, 2)]⟩ 1 7 1 ⟨2, false, .running, []⟩ rfl (by decide) (by decide) rfl

/-- The secs and nanos representation of std::time::Duration: a u64
second count and a nanosecond remainder below one billion. -/
structure Duration where
  secs : Nat
  nanos : Nat
  secs_lt : secs < 2 ^ 64
  nanos_lt : nanos < 1000000000

/-- Duration::as_millis from the Rust standard library: whole
milliseconds, computed in u128 as secs * 1000 + nanos / 1000000 (no u128
overflow is possible from the field bounds). -/
def Duration.as_millis (d : Duration) : Nat :=
  d.secs * 1000 + d.nanos / 1000000

/-- The total nanosecond count of a Duration; its whole-millisecond count
is this divided by one million. -/
def Duration.totalNanos (d : Duration) : Nat :=
  d.secs * 1000000000 + d.nanos

/-- Embedded from src/src/lib.rs (sleep): the millisecond argument passed
to the host is duration.as_millis() as u64, the cast truncating the u128
value modulo 2 ^ 64. -/
def sleepMsArg (d : Duration) : Nat :=
  d.as_millis % 2 ^ 64

theorem as_millis_eq_totalNanos_div (d : Duration) :
    d.as_millis = d.totalNanos / 1000000 := by
  unfold Duration.as_millis Duration.totalNanos
  have : d.secs * 1000000000 + d.nanos = d.nanos + d.secs * 1000 * 1000000 := by ring
  rw [this, Nat.add_mul_div_right _ _ (by norm_num)]
  omega

/-- C10: sleep requests a host sleep of exactly as_millis truncated to 64
bits — the whole-millisecond count modulo 2 ^ 64; a Duration under one
millisecond yields an argument of 0 (sub-millisecond precision is
discarded), and a Duration whose millisecond count exceeds 2 ^ 64 - 1
wraps, passing a value different from the true count. -/
theorem sleep_truncates_millis (d : Duration) :
    sleepMsArg d = (d.totalNanos / 1000000) % 2 ^ 64 ∧
    (d.totalNanos < 1000000 → sleepMsArg d = 0) ∧
    (2 ^ 64 ≤ d.as_millis → sleepMsArg d ≠ d.as_millis) := by
  refine ⟨?_, ?_, ?_⟩
  · rw [sleepMsArg, as_millis_eq_totalNanos_div]
  · intro hsub
    have : d.totalNanos / 1000000 = 0 := Nat.div_eq_of_lt hsub
    rw [sleepMsArg, as_millis_eq_totalNanos_div, this]
    rfl
  · intro hbig
    have hlt : d.as_millis % 2 ^ 64 < 2 ^ 64 := Nat.mod_lt _ (by norm_num)
    rw [sleepMsArg]
    omega

/-- C10 witness: 999999 nanoseconds sleep for 0 ms, and a Duration of
2 ^ 61 seconds has a millisecond count past 2 ^ 64 - 1, so its host
argument wraps to a different value. -/
theorem sleep_truncates_millis_witness :
    sleepMsArg ⟨0, 999999, by norm_num, by norm_num⟩ = 0 ∧
    sleepMsArg ⟨2305843009213693952, 0, by norm_num, by norm_num⟩ ≠
      Duration.as_millis ⟨2305843009213693952, 0, by norm_num, by norm_num⟩ :=
  ⟨(sleep_truncates_millis ⟨0, 999999, by norm_num, by norm_num⟩).2.1
     (by norm_num [Duration.totalNanos]),
   (sleep_truncates_millis ⟨2305843009213693952, 0, by norm_num, by norm_num⟩).2.2
     (by norm_num [Duration.as_millis])⟩

end Lunatic
